import Mathlib

/-!
# Verification of the amdgpu-sentinel decision core

A shallow embedding, in Lean 4, of the algorithmic core of the
`amdgpu-sentinel` repository, together with theorems settling the frozen
claims about it.  Rust `f64`/`f32` samples are modelled as `ℚ` (all sample
arithmetic the claims exercise is exact on small integers), `u32` values as
`Nat`, `Vec<T>` as `List`, and fallible operations as `Option`/`Except`.
A Rust `panic!`/`expect` abort is modelled as a distinguished outcome where
a claim depends on it.
-/

set_option autoImplicit false
set_option linter.unusedSectionVars false

namespace Sentinel

/-! ## CircularBuffer (src/circular_buffer.rs)

```rust
pub struct CircularBuffer<T> { data: Vec<T>, size: usize, last: usize }
```
-/

structure CircularBuffer (α : Type) where
  data : List α
  size : Nat
  last : Nat
  deriving Repr, DecidableEq

namespace CircularBuffer

variable {α : Type} [Inhabited α]

/-- `CircularBuffer::new(size)`. -/
def new (α : Type) (size : Nat) : CircularBuffer α :=
  { data := [], size := size, last := 0 }

/-- `CircularBuffer::add`: push while below capacity, otherwise overwrite the
slot at `last` and advance `last` modulo `size`. -/
def add (b : CircularBuffer α) (value : α) : CircularBuffer α :=
  if b.data.length < b.size then
    { b with data := b.data ++ [value] }
  else
    { b with data := b.data.set b.last value, last := (b.last + 1) % b.size }

/-- Ingest a whole sequence of samples, oldest first. -/
def addAll (b : CircularBuffer α) (xs : List α) : CircularBuffer α :=
  xs.foldl add b

/-- `CircularBuffer::len`. -/
def len (b : CircularBuffer α) : Nat := b.data.length

/-- `CircularBuffer::last`: `&self.data[self.last]`.  Rust panics when the
index is out of bounds (in particular on an empty buffer); we return `none`
there. -/
def lastElem (b : CircularBuffer α) : Option α := b.data[b.last]?

/-- One step of `CircularIterator::next`'s cursor:
`if cur == len - 1 { 0 } else { cur + 1 }`. -/
def fwdStep (len cur : Nat) : Nat := if cur = len - 1 then 0 else cur + 1

/-- The elements produced by repeatedly calling `CircularIterator::next`,
starting at cursor `cur` with `left` remaining.  Rust would panic on an
out-of-bounds `cur`; reachable buffers keep the cursor in bounds and we use
the panic-free `getD`. -/
def iterFrom (data : List α) : Nat → Nat → List α
  | _, 0 => []
  | cur, left + 1 => data.getD cur default :: iterFrom data (fwdStep data.length cur) left

/-- One step of `CircularIterator::next_back`'s cursor:
`if rev_cur == 0 { len - 1 } else { rev_cur - 1 }`. -/
def revStep (len cur : Nat) : Nat := if cur = 0 then len - 1 else cur - 1

/-- The elements produced by repeatedly calling `CircularIterator::next_back`. -/
def revIterFrom (data : List α) : Nat → Nat → List α
  | _, 0 => []
  | cur, left + 1 => data.getD cur default :: revIterFrom data (revStep data.length cur) left

/-- The full forward traversal of `CircularBuffer::iter()`:
the iterator starts at `cur = last` with `left = data.len()`. -/
def iterList (b : CircularBuffer α) : List α :=
  iterFrom b.data b.last b.data.length

/-- The full backward traversal of `CircularBuffer::iter().rev()`: the
iterator starts at `rev_cur = if last == 0 { len - 1 } else { last - 1 }`
with `left = data.len()`. -/
def revIterList (b : CircularBuffer α) : List α :=
  revIterFrom b.data (if b.last = 0 then b.data.length - 1 else b.last - 1) b.data.length

end CircularBuffer

/-! ## stats (src/stats.rs)

`index_weighted_average` folds over `it.enumerate()`, accumulating
`(sum + value * (idx + 1), total_weight + (idx + 1))` and finally returns
`sum / total_weight`. -/

/-- The enumerate-and-fold loop of `index_weighted_average`, carrying the
running enumeration index and the `(sum, total_weight)` accumulator. -/
def iwaFold (idx : Nat) (acc : ℚ × Nat) : List ℚ → ℚ × Nat
  | [] => acc
  | v :: rest => iwaFold (idx + 1) (acc.1 + v * (idx + 1 : Nat), acc.2 + (idx + 1)) rest

/-- `stats::index_weighted_average` over a forward traversal (`ℚ` models
`f64`; Rust's `0.0 / 0.0 = NaN` on an empty traversal becomes `0`). -/
def index_weighted_average (l : List ℚ) : ℚ :=
  let p := iwaFold 0 (0, 0) l
  p.1 / (p.2 : ℚ)


namespace CircularBuffer

variable {α : Type} [Inhabited α]

/-- Invariant of every buffer state reachable by ingesting `xs` into a fresh
buffer of capacity `c`. -/
def ReachInv (c : Nat) (xs : List α) (b : CircularBuffer α) : Prop :=
  b.size = c ∧
  ((xs.length < c ∧ b.data = xs ∧ b.last = 0) ∨
   (c ≤ xs.length ∧ b.data.length = c ∧ b.last < c ∧
     b.iterList = xs.drop (xs.length - c)))

end CircularBuffer

/-! ## GpuStateMachine (src/main.rs)

The controller state machine of `main.rs`: three regimes, a usage buffer and
a temperature buffer.  `f64`/`f32` samples are both modelled as `ℚ`. -/

inductive GpuCustomState
  | Idle
  | CoolOff
  | Performance
  deriving Repr, DecidableEq

structure GpuStateMachine where
  state : GpuCustomState
  usage_buffer : CircularBuffer ℚ
  temperature_buffer : CircularBuffer ℚ

namespace GpuStateMachine

/-- `GpuStateMachine::new(buffer_scale)`: starts in `Idle` with a usage
buffer of capacity `30 * buffer_scale` and a temperature buffer of capacity
`10 * buffer_scale`. -/
def new (buffer_scale : Nat) : GpuStateMachine :=
  { state := GpuCustomState.Idle,
    usage_buffer := CircularBuffer.new ℚ (30 * buffer_scale),
    temperature_buffer := CircularBuffer.new ℚ (10 * buffer_scale) }

/-- `GpuStateMachine::update`: ingest one usage and one temperature sample. -/
def update (m : GpuStateMachine) (usage temperature : ℚ) : GpuStateMachine :=
  { m with
    usage_buffer := m.usage_buffer.add usage,
    temperature_buffer := m.temperature_buffer.add temperature }

/-- The `new_state` computed by `GpuStateMachine::step`.
`current_temperature` is `*self.temperature_buffer.last()` (Rust panics on an
empty buffer; the `getD 0` default is never exercised by the theorems, which
assume a non-empty buffer or are insensitive to it). -/
def stepState (m : GpuStateMachine) : GpuCustomState :=
  let current_temperature := m.temperature_buffer.lastElem.getD 0
  let weighted_avg_usage := index_weighted_average m.usage_buffer.iterList
  let weighted_avg_temperature := index_weighted_average m.temperature_buffer.iterList
  let performance_treshold : ℚ := 75
  if weighted_avg_usage ≥ performance_treshold then
    GpuCustomState.Performance
  else
    match m.state with
    | GpuCustomState.Idle =>
        if weighted_avg_usage > 50 then GpuCustomState.Performance
        else if current_temperature ≥ 55 then GpuCustomState.CoolOff
        else m.state
    | GpuCustomState.CoolOff =>
        if weighted_avg_temperature ≤ 43 then GpuCustomState.Idle
        else m.state
    | GpuCustomState.Performance =>
        if (m.usage_buffer.iterList.any fun u => decide (u ≥ performance_treshold))
            && decide (weighted_avg_usage ≥ 5) then m.state
        else GpuCustomState.Idle

/-- `GpuStateMachine::step` commits `new_state` (the `apply` call performs
only device I/O, which is outside the decision core). -/
def step (m : GpuStateMachine) : GpuStateMachine :=
  { m with state := m.stepState }

end GpuStateMachine

/-! ## ClampedPercentage (src/clamped_percentage.rs) -/

inductive ClampedPercentageError
  | TooLittle
  | TooBig
  deriving Repr, DecidableEq

namespace ClampedPercentage

/-- `TryFrom<f64> for ClampedPercentage`: rejects values outside `[0, 100]`
with an error instead of clamping.  The payload of a successful construction
is the stored percentage. -/
def try_from (value : ℚ) : Except ClampedPercentageError ℚ :=
  if value < 0 then Except.error ClampedPercentageError.TooLittle
  else if value > 100 then Except.error ClampedPercentageError.TooBig
  else Except.ok value

/-- `ClampedPercentage::try_new` forwards to `try_from`;
`ClampedPercentage::new` unwraps it and hence panics on an error. -/
def try_new (value : ℚ) : Except ClampedPercentageError ℚ := try_from value

end ClampedPercentage

/-! ## Rust string primitives, over `List Char`

Rust `&str` values are modelled as `List Char`; the helpers below mirror the
`str` methods the table parser uses (`split`, `trim`, `split_whitespace`,
`ends_with`, `replace(pat, "")`, `str::parse::<u32>`). -/

namespace RustStr

/-- `str::split(sep)` for a single-char separator: splits on every occurrence
and keeps empty pieces (so `"".split(sep)` is `[""]`). -/
def splitPred (p : Char → Bool) : List Char → List (List Char)
  | [] => [[]]
  | c :: rest =>
    let r := splitPred p rest
    if p c then [] :: r else (c :: r.headD []) :: r.tail

def splitChar (sep : Char) (s : List Char) : List (List Char) :=
  splitPred (fun c => c = sep) s

/-- `str::trim`: drop leading and trailing whitespace. -/
def trimChars (s : List Char) : List Char :=
  ((s.dropWhile Char.isWhitespace).reverse.dropWhile Char.isWhitespace).reverse

/-- `str::split_whitespace`: pieces between whitespace runs, no empties. -/
def split_whitespace (s : List Char) : List (List Char) :=
  (splitPred Char.isWhitespace s).filter (fun w => !w.isEmpty)

/-- `str::replace(pat, "")`: remove every (leftmost, non-overlapping)
occurrence of a non-empty pattern.  The structural `fuel` argument only
bounds the recursion; `removeOcc` supplies `s.length`, which the shrinking
input never exhausts. -/
def removeOccAux (pat : List Char) : Nat → List Char → List Char
  | _, [] => []
  | 0, s => s
  | fuel + 1, c :: rest =>
    if pat ≠ [] ∧ pat.isPrefixOf (c :: rest) then
      removeOccAux pat fuel (rest.drop (pat.length - 1))
    else
      c :: removeOccAux pat fuel rest

def removeOcc (pat s : List Char) : List Char :=
  removeOccAux pat s.length s

/-- `str::parse::<u32>`: an optional leading `+`, then one or more ASCII
digits, rejecting values above `u32::MAX`. -/
def parse_u32 (s : List Char) : Option Nat :=
  let t := match s with
    | '+' :: rest => rest
    | _ => s
  if t ≠ [] ∧ t.all Char.isDigit then
    let v := t.foldl (fun acc c => acc * 10 + (c.toNat - 48)) 0
    if v < 4294967296 then some v else none
  else none

end RustStr

/-! ## PolarisGpuTable (src/polaris_gpu_table.rs)

`Part` is `crate::polaris_gpu::Part`; its definition file is not in the
snapshot but every `match part` in the table code fixes its two variants. -/

inductive Part
  | Core
  | Memory
  deriving Repr, DecidableEq

structure PolarisGpuState where
  clock : Nat
  voltage : Nat
  deriving Repr, DecidableEq

/-- `std::ops::RangeInclusive<u32>`. -/
structure RangeInclusive where
  lo : Nat
  hi : Nat
  deriving Repr, DecidableEq

def RangeInclusive.contains (r : RangeInclusive) (v : Nat) : Prop :=
  r.lo ≤ v ∧ v ≤ r.hi

instance (r : RangeInclusive) (v : Nat) : Decidable (r.contains v) :=
  instDecidableAnd

structure PolarisGpuTable where
  voltage_range : RangeInclusive
  sclk_range : RangeInclusive
  mclk_range : RangeInclusive
  memory_states : List PolarisGpuState
  core_states : List PolarisGpuState
  deriving Repr, DecidableEq

inductive StateInvalidReason
  | VoltageNotInRange
  | ClockNotInRange
  | InvalidIndex
  deriving Repr, DecidableEq

namespace PolarisGpuTable

def clock_range (t : PolarisGpuTable) : Part → RangeInclusive
  | Part.Core => t.sclk_range
  | Part.Memory => t.mclk_range

def states (t : PolarisGpuTable) : Part → List PolarisGpuState
  | Part.Core => t.core_states
  | Part.Memory => t.memory_states

def get_state (t : PolarisGpuTable) (part : Part) (index : Nat) :
    Option PolarisGpuState :=
  (t.states part)[index]?

/-- `validate_state`: voltage against the shared range first, then clock
against the part's range. -/
def validate_state (t : PolarisGpuTable) (part : Part) (state : PolarisGpuState) :
    Except StateInvalidReason Unit :=
  if ¬ t.voltage_range.contains state.voltage then
    Except.error StateInvalidReason.VoltageNotInRange
  else if ¬ (t.clock_range part).contains state.clock then
    Except.error StateInvalidReason.ClockNotInRange
  else
    Except.ok ()

def setPart (t : PolarisGpuTable) (part : Part) (vec : List PolarisGpuState) :
    PolarisGpuTable :=
  match part with
  | Part.Core => { t with core_states := vec }
  | Part.Memory => { t with memory_states := vec }

/-- `set_state`: validates first, then bounds-checks the index before the
in-place write.  The second component is the table after the call (`&mut
self` in Rust: unchanged on every failure path). -/
def set_state (t : PolarisGpuTable) (part : Part) (index : Nat)
    (state : PolarisGpuState) : Except StateInvalidReason Unit × PolarisGpuTable :=
  match t.validate_state part state with
  | Except.ok _ =>
    let vec := t.states part
    if index < vec.length then
      (Except.ok (), t.setPart part (vec.set index state))
    else
      (Except.error StateInvalidReason.InvalidIndex, t)
  | Except.error reason => (Except.error reason, t)

/-- `parse_unit`: the token must end with the unit, the unit's occurrences
are removed and the remainder is parsed as `u32`. -/
def parse_unit (data : List Char) (unit : List Char) : Option Nat :=
  if unit.isSuffixOf data then RustStr.parse_u32 (RustStr.removeOcc unit data)
  else none

inductive ParserState
  | Initial
  | Core
  | Memory
  | Ranges

structure ParseAcc where
  voltage_range : Option RangeInclusive
  sclk_range : Option RangeInclusive
  mclk_range : Option RangeInclusive
  core_states : List PolarisGpuState
  memory_states : List PolarisGpuState
  pstate : ParserState

/-- The outcome of `try_parse`, distinguishing a `panic!`/`expect` abort from
an orderly `None`. -/
inductive TryParseResult
  | panicked
  | failed
  | parsed (t : PolarisGpuTable)
  deriving Repr, DecidableEq

/-- One iteration of `try_parse`'s line loop; `none` is a panic. -/
def processLine (acc : ParseAcc) (line : List Char) : Option ParseAcc :=
  let semicolon_split := RustStr.splitChar ':' (RustStr.trimChars line)
  let pre := semicolon_split.headD []
  let maybe_data := semicolon_split.tail.head?
  let data := match maybe_data with
    | some d => RustStr.trimChars d
    | none => []
  if data ≠ [] then
    let data_split := RustStr.split_whitespace data
    match acc.pstate with
    | ParserState.Initial => none
    | ParserState.Core | ParserState.Memory =>
      match data_split with
      | clock_str :: voltage_str :: _ =>
        match parse_unit clock_str "MHz".toList, parse_unit voltage_str "mV".toList with
        | some clock, some voltage =>
          let st : PolarisGpuState := { clock := clock, voltage := voltage }
          match acc.pstate with
          | ParserState.Core => some { acc with core_states := acc.core_states ++ [st] }
          | _ => some { acc with memory_states := acc.memory_states ++ [st] }
        | _, _ => none
      | _ => none
    | ParserState.Ranges =>
      match data_split with
      | lower_str :: upper_str :: _ =>
        let unitOpt : Option (List Char) :=
          if pre = "SCLK".toList ∨ pre = "MCLK".toList then some "MHz".toList
          else if pre = "VDDC".toList then some "mV".toList
          else none
        match unitOpt with
        | none => none
        | some u =>
          match parse_unit lower_str u, parse_unit upper_str u with
          | some lower, some upper =>
            let range : RangeInclusive := { lo := lower, hi := upper }
            if pre = "SCLK".toList then some { acc with sclk_range := some range }
            else if pre = "MCLK".toList then some { acc with mclk_range := some range }
            else some { acc with voltage_range := some range }
          | _, _ => none
      | _ => none
  else
    let hd := RustStr.trimChars pre
    if hd = "OD_SCLK".toList then some { acc with pstate := ParserState.Core }
    else if hd = "OD_MCLK".toList then some { acc with pstate := ParserState.Memory }
    else if hd = "OD_RANGE".toList then some { acc with pstate := ParserState.Ranges }
    else if hd = [] then some acc
    else none

/-- The parser's initial accumulator: nothing seen yet. -/
def initAcc : ParseAcc :=
  { voltage_range := none, sclk_range := none, mclk_range := none,
    core_states := [], memory_states := [], pstate := ParserState.Initial }

/-- `try_parse`'s final completeness check: all three ranges seen and both
state lists non-empty, else `None`; a loop abort stays an abort. -/
def finishParse : Option ParseAcc → TryParseResult
  | none => TryParseResult.panicked
  | some acc =>
    match acc.voltage_range, acc.sclk_range, acc.mclk_range with
    | some vr, some sr, some mr =>
      if acc.memory_states.length > 0 ∧ acc.core_states.length > 0 then
        TryParseResult.parsed
          { voltage_range := vr, sclk_range := sr, mclk_range := mr,
            memory_states := acc.memory_states, core_states := acc.core_states }
      else TryParseResult.failed
    | _, _, _ => TryParseResult.failed

/-- `PolarisGpuTable::try_parse`: the line loop over `data.split("\n")`,
then the completeness check. -/
def try_parse (input : String) : TryParseResult :=
  finishParse ((RustStr.splitChar '\n' input.toList).foldlM processLine initAcc)

end PolarisGpuTable

/-! ## FanCurve

Modelled from the spec: the repository snapshot under `src/` contains no
fan-curve implementation (the spec's §4.3 `FanCurve` component is missing
from the source tree), so the definitions below follow the spec's words. -/

structure FanCurvePoint where
  temperature : ℚ
  duty : ℚ
  deriving Repr, DecidableEq

instance : Inhabited FanCurvePoint :=
  ⟨{ temperature := 0, duty := 0 }⟩

/-- Modelled from the spec: an immutable, temperature-sorted, non-empty
sequence of `(temperature, duty-cycle)` control points. -/
structure FanCurve where
  points : List FanCurvePoint
  deriving Repr, DecidableEq

namespace FanCurve

/-- Scan from index `n - 1` downward for the first (i.e. greatest) point
whose temperature is at most the query temperature. -/
def findLowerAux (points : List FanCurvePoint) (t : ℚ) : Nat → Option Nat
  | 0 => none
  | i + 1 =>
    if (points.getD i default).temperature ≤ t then some i
    else findLowerAux points t i

def findLower (points : List FanCurvePoint) (t : ℚ) : Option Nat :=
  findLowerAux points t points.length

/-- Modelled from the spec: `evaluate(temperature)` finds, scanning from the
highest temperature downward, the greatest control point whose temperature is
`≤` the query; that is the lower point, the next point by index the upper
point (or itself if it is the last point).  Between distinct lower and upper
it interpolates linearly; below every point it returns the lowest point's
duty unmodified; at or above the last point it returns that point's duty with
no division.  (The spec's parenthetical integer-truncated comparison
coincides with the exact comparison on the integral temperatures all of its
examples use; the comparison is modelled exactly.) -/
def evaluate (c : FanCurve) (t : ℚ) : ℚ :=
  match findLower c.points t with
  | none => (c.points.headD default).duty
  | some i =>
    let lower := c.points.getD i default
    if i + 1 < c.points.length then
      let upper := c.points.getD (i + 1) default
      lower.duty +
        (t - lower.temperature) / (upper.temperature - lower.temperature) *
          (upper.duty - lower.duty)
    else lower.duty

end FanCurve

/-! ## Claim-support definitions -/

/-- The canonical three-section operating-point text (the test fixture of
`polaris_gpu_table.rs`, indentation included). -/
def canonicalText : String :=
  "\n" ++
  "        OD_SCLK:\n" ++
  "        0:        300MHz        750mV\n" ++
  "        1:        588MHz        765mV\n" ++
  "        2:        952MHz        931mV\n" ++
  "        3:       1041MHz       1006mV\n" ++
  "        4:       1106MHz       1068mV\n" ++
  "        5:       1168MHz       1131mV\n" ++
  "        6:       1209MHz       1150mV\n" ++
  "        7:       1244MHz       1150mV\n" ++
  "        OD_MCLK:\n" ++
  "        0:        300MHz        750mV\n" ++
  "        1:       1000MHz        800mV\n" ++
  "        2:       1500MHz        900mV\n" ++
  "        OD_RANGE:\n" ++
  "        SCLK:     300MHz       2000MHz\n" ++
  "        MCLK:     300MHz       2250MHz\n" ++
  "        VDDC:     750mV        1150mV\n" ++
  "        "

/-- The table the canonical text denotes. -/
def canonicalTable : PolarisGpuTable :=
  { voltage_range := { lo := 750, hi := 1150 },
    sclk_range := { lo := 300, hi := 2000 },
    mclk_range := { lo := 300, hi := 2250 },
    memory_states := [{ clock := 300, voltage := 750 },
                      { clock := 1000, voltage := 800 },
                      { clock := 1500, voltage := 900 }],
    core_states := [{ clock := 300, voltage := 750 },
                    { clock := 588, voltage := 765 },
                    { clock := 952, voltage := 931 },
                    { clock := 1041, voltage := 1006 },
                    { clock := 1106, voltage := 1068 },
                    { clock := 1168, voltage := 1131 },
                    { clock := 1209, voltage := 1150 },
                    { clock := 1244, voltage := 1150 }] }

/-- A `Performance`-regime machine whose usage traversal is `[50, 50]`:
weighted usage 50, no single sample at the 75 threshold. -/
def perfLowMachine : GpuStateMachine :=
  { state := GpuCustomState.Performance,
    usage_buffer := CircularBuffer.addAll (CircularBuffer.new ℚ 30) [50, 50],
    temperature_buffer := CircularBuffer.addAll (CircularBuffer.new ℚ 10) [30] }

/-- A `Performance`-regime machine whose usage traversal is `[80, 10]`:
weighted usage 100/3, one sample at the 75 threshold. -/
def perfHighMachine : GpuStateMachine :=
  { state := GpuCustomState.Performance,
    usage_buffer := CircularBuffer.addAll (CircularBuffer.new ℚ 30) [80, 10],
    temperature_buffer := CircularBuffer.addAll (CircularBuffer.new ℚ 10) [30] }

/-- The transitions the spec lists for the regime machine, staying in place
included. -/
def AllowedTransition (s s' : GpuCustomState) : Prop :=
  s = s' ∨
  (s = GpuCustomState.Idle ∧ s' = GpuCustomState.CoolOff) ∨
  (s = GpuCustomState.CoolOff ∧ s' = GpuCustomState.Idle) ∨
  (s = GpuCustomState.Idle ∧ s' = GpuCustomState.Performance) ∨
  (s = GpuCustomState.CoolOff ∧ s' = GpuCustomState.Performance) ∨
  (s = GpuCustomState.Performance ∧ s' = GpuCustomState.Idle)

/-! ## Traversal lemmas for the circular iterator -/

namespace CircularBuffer

variable {α : Type} [Inhabited α]

lemma fwdStep_eq_mod {len cur : Nat} (h : cur < len) :
    fwdStep len cur = (cur + 1) % len := by
  unfold fwdStep
  split
  · have hc : cur + 1 = len := by omega
    rw [hc, Nat.mod_self]
  · exact (Nat.mod_eq_of_lt (by omega)).symm

lemma revStep_eq_mod {len cur : Nat} (h : cur < len) :
    revStep len cur = (cur + (len - 1)) % len := by
  unfold revStep
  split
  · subst_vars
    simp only [Nat.zero_add]
    exact (Nat.mod_eq_of_lt (by omega)).symm
  · have : cur + (len - 1) = (cur - 1) + len := by omega
    rw [this, Nat.add_mod_right, Nat.mod_eq_of_lt (by omega)]

/-- The forward iterator visits positions `(cur + i) % len`. -/
lemma iterFrom_eq_map (data : List α) :
    ∀ (left cur : Nat), cur < data.length →
      iterFrom data cur left =
        (List.range left).map (fun i => data.getD ((cur + i) % data.length) default) := by
  intro left
  induction left with
  | zero => intro cur _; simp [iterFrom]
  | succ n ih =>
    intro cur hcur
    have hlen : 0 < data.length := by omega
    rw [iterFrom, fwdStep_eq_mod hcur, ih _ (Nat.mod_lt _ hlen)]
    rw [List.range_succ_eq_map, List.map_cons, List.map_map]
    congr 1
    · rw [Nat.add_zero, Nat.mod_eq_of_lt hcur]
    · apply List.map_congr_left
      intro i _
      simp only [Function.comp_apply, Nat.succ_eq_add_one]
      congr 1
      rw [Nat.mod_add_mod]
      congr 1
      omega

/-- The backward iterator visits positions `(cur + (len - 1) * i) % len`. -/
lemma revIterFrom_eq_map (data : List α) :
    ∀ (left cur : Nat), cur < data.length →
      revIterFrom data cur left =
        (List.range left).map
          (fun i => data.getD ((cur + (data.length - 1) * i) % data.length) default) := by
  intro left
  induction left with
  | zero => intro cur _; simp [revIterFrom]
  | succ n ih =>
    intro cur hcur
    have hlen : 0 < data.length := by omega
    rw [revIterFrom, revStep_eq_mod hcur, ih _ (Nat.mod_lt _ hlen)]
    rw [List.range_succ_eq_map, List.map_cons, List.map_map]
    congr 1
    · rw [Nat.mul_zero, Nat.add_zero, Nat.mod_eq_of_lt hcur]
    · apply List.map_congr_left
      intro i _
      simp only [Function.comp_apply, Nat.succ_eq_add_one]
      congr 1
      rw [Nat.mod_add_mod]
      congr 1
      ring

/-- Reversing a map over `List.range` flips the index. -/
lemma reverse_map_range {β : Type} (n : Nat) (f : Nat → β) :
    ((List.range n).map f).reverse = (List.range n).map (fun i => f (n - 1 - i)) := by
  apply List.ext_getElem
  · simp
  · intro i h₁ h₂
    simp only [List.length_reverse, List.length_map, List.length_range] at h₁
    rw [List.getElem_reverse, List.getElem_map, List.getElem_map, List.getElem_range,
      List.getElem_range]
    simp

lemma map_getD_range (l : List α) :
    (List.range l.length).map (fun i => l.getD i default) = l := by
  apply List.ext_getElem
  · simp
  · intro i h₁ h₂
    rw [List.getElem_map, List.getElem_range, List.getD_eq_getElem?_getD,
      List.getElem?_eq_getElem h₂]
    rfl

/-- Key arithmetic step for relating the two traversals. -/
lemma rev_index_mod (len last i : Nat) (hi : i < len) :
    (last + (len - 1) + (len - 1) * i) % len = (last + (len - 1 - i)) % len := by
  obtain ⟨k, hk⟩ : ∃ k, len = i + k + 1 := ⟨len - i - 1, by omega⟩
  subst hk
  have h1 : i + k + 1 - 1 = i + k := by omega
  have h2 : i + k + 1 - 1 - i = k := by omega
  rw [h2, h1]
  have h3 : last + (i + k) + (i + k) * i = last + k + (i + k + 1) * i := by ring
  rw [h3, Nat.add_mul_mod_self_left]

/-- The backward traversal of `CircularBuffer::iter().rev()` is the exact
reverse of the forward traversal, whenever the cursor invariant holds. -/
lemma revIterList_eq_reverse (b : CircularBuffer α) (h : b.last < b.data.length) :
    b.revIterList = b.iterList.reverse := by
  have hlen : 0 < b.data.length := by omega
  have hstart : (if b.last = 0 then b.data.length - 1 else b.last - 1) =
      (b.last + (b.data.length - 1)) % b.data.length := by
    split
    · rename_i h0
      rw [h0, Nat.zero_add, Nat.mod_eq_of_lt (by omega)]
    · have : b.last + (b.data.length - 1) = (b.last - 1) + b.data.length := by omega
      rw [this, Nat.add_mod_right, Nat.mod_eq_of_lt (by omega)]
  rw [revIterList, iterList, hstart,
    revIterFrom_eq_map _ _ _ (Nat.mod_lt _ hlen),
    iterFrom_eq_map _ _ _ h, reverse_map_range]
  apply List.map_congr_left
  intro i hi
  rw [List.mem_range] at hi
  congr 1
  rw [Nat.mod_add_mod, rev_index_mod _ _ _ hi]

lemma iterList_eq_data (b : CircularBuffer α) (h0 : b.last = 0) :
    b.iterList = b.data := by
  rcases Nat.eq_zero_or_pos b.data.length with hl | hl
  · have hd : b.data = [] := List.length_eq_zero.mp hl
    rw [iterList, hd]
    rfl
  · rw [iterList, h0, iterFrom_eq_map _ _ _ hl]
    conv_rhs => rw [← map_getD_range b.data]
    apply List.map_congr_left
    intro i hi
    rw [List.mem_range] at hi
    rw [Nat.zero_add, Nat.mod_eq_of_lt hi]

lemma iterList_mk (d : List α) (s l : Nat) :
    iterList (CircularBuffer.mk d s l) = iterFrom d l d.length := rfl

lemma add_size (b : CircularBuffer α) (x : α) : (b.add x).size = b.size := by
  rw [add]; split <;> rfl

lemma add_below_cap (b : CircularBuffer α) (x : α) (hlt : b.data.length < b.size) :
    b.add x = CircularBuffer.mk (b.data ++ [x]) b.size b.last := by
  rw [add, if_pos hlt]

lemma add_full (b : CircularBuffer α) (x : α) (hfull : ¬ b.data.length < b.size) :
    b.add x = CircularBuffer.mk (b.data.set b.last x) b.size ((b.last + 1) % b.size) := by
  rw [add, if_neg hfull]

/-- Overwriting the oldest slot of a full buffer drops the head of the
forward traversal and appends the new sample at its end. -/
lemma iterList_add_full (b : CircularBuffer α) (x : α)
    (hfull : b.data.length = b.size) (hlast : b.last < b.size) :
    (b.add x).iterList = b.iterList.drop 1 ++ [x] := by
  have hc : 0 < b.size := by omega
  obtain ⟨k, hk⟩ : ∃ k, b.size = k + 1 := ⟨b.size - 1, by omega⟩
  rw [add_full _ _ (by omega), iterList_mk, iterList]
  have hlen' : (b.data.set b.last x).length = b.size := by
    rw [List.length_set, hfull]
  rw [iterFrom_eq_map _ _ _ (by rw [hlen']; exact Nat.mod_lt _ hc),
    iterFrom_eq_map _ _ _ (by omega)]
  rw [hlen', hfull, hk]
  nth_rewrite 2 [List.range_succ_eq_map]
  rw [List.range_succ, List.map_cons, List.map_append,
    List.map_map, List.drop_one, List.tail_cons, List.map_cons, List.map_nil]
  congr 1
  · apply List.map_congr_left
    intro i hi
    rw [List.mem_range] at hi
    simp only [Function.comp_apply, Nat.succ_eq_add_one]
    rw [Nat.mod_add_mod]
    have hne : (b.last + 1 + i) % (k + 1) ≠ b.last := by
      intro hpe
      have h1 : (b.last + (1 + i)) % (k + 1) = b.last % (k + 1) := by
        have e1 : b.last + (1 + i) = b.last + 1 + i := by omega
        rw [e1, hpe]
        exact (Nat.mod_eq_of_lt (by omega)).symm
      have hmod : b.last + (1 + i) ≡ b.last + 0 [MOD (k + 1)] := by
        unfold Nat.ModEq
        rw [Nat.add_zero]
        exact h1
      have h10 : (1 + i) % (k + 1) = 0 % (k + 1) :=
        Nat.ModEq.add_left_cancel' _ hmod
      rw [Nat.mod_eq_of_lt (show 1 + i < k + 1 by omega), Nat.zero_mod] at h10
      omega
    rw [List.getD_eq_getElem?_getD, List.getElem?_set_ne (Ne.symm hne),
      ← List.getD_eq_getElem?_getD]
    congr 2
    omega
  · have hpos : (b.last + 1) % (k + 1) + k = b.last + (k + 1) ∨
        (b.last + 1) % (k + 1) + k = b.last := by
      rcases Nat.lt_or_ge b.last k with h | h
      · left; rw [Nat.mod_eq_of_lt (by omega)]; omega
      · right
        have hbl : b.last = k := by omega
        rw [hbl, Nat.mod_self]
        omega
    have hmodeq : ((b.last + 1) % (k + 1) + k) % (k + 1) = b.last := by
      rcases hpos with h | h
      · rw [h, Nat.add_mod_right, Nat.mod_eq_of_lt (by omega)]
      · rw [h, Nat.mod_eq_of_lt (by omega)]
    rw [hmodeq, List.getD_eq_getElem?_getD, List.getElem?_set_self (by omega)]
    rfl

lemma reachInv_add {c : Nat} (hc : 1 ≤ c) {xs : List α} {b : CircularBuffer α}
    {x : α} (h : ReachInv c xs b) : ReachInv c (xs ++ [x]) (b.add x) := by
  obtain ⟨hsize, hcase⟩ := h
  rcases hcase with ⟨hlt, hdata, hlast⟩ | ⟨hge, hlen, hlast, hiter⟩
  · have hblen : b.data.length < b.size := by rw [hdata, hsize]; exact hlt
    rw [add_below_cap _ _ hblen]
    refine ⟨hsize, ?_⟩
    by_cases hx : xs.length + 1 < c
    · left
      refine ⟨by simpa using hx, by rw [hdata], hlast⟩
    · right
      have hxc : xs.length + 1 = c := by omega
      refine ⟨by simp only [List.length_append, List.length_singleton]; omega,
        by simp only [List.length_append, List.length_singleton, hdata]; omega,
        by simp only [hlast]; omega, ?_⟩
      rw [iterList_eq_data (CircularBuffer.mk (b.data ++ [x]) b.size b.last) hlast]
      have hzero : (xs ++ [x]).length - c = 0 := by
        simp only [List.length_append, List.length_singleton]; omega
      rw [hzero, List.drop_zero, hdata]
  · have hfull : b.data.length = b.size := by omega
    have hlast' : b.last < b.size := by omega
    refine ⟨by rw [add_size, hsize], Or.inr
      ⟨by simp only [List.length_append, List.length_singleton]; omega, ?_, ?_, ?_⟩⟩
    · rw [add_full _ _ (by omega)]
      simp only [List.length_set]
      exact hlen
    · rw [add_full _ _ (by omega)]
      have := Nat.mod_lt (b.last + 1) (y := b.size) (by omega)
      simp only []
      omega
    · rw [iterList_add_full b x hfull hlast', hiter, List.drop_drop,
        List.drop_append_of_le_length
          (by simp only [List.length_append, List.length_singleton]; omega)]
      congr 2
      simp only [List.length_append, List.length_singleton]
      omega

lemma reachInv_addAll {c : Nat} (hc : 1 ≤ c) (xs : List α) :
    ReachInv c xs (addAll (new α c) xs) := by
  suffices h : ∀ (ys : List α) (b : CircularBuffer α),
      ReachInv c ys b → ReachInv c (ys ++ xs) (addAll b xs) by
    simpa using h [] (new α c)
      ⟨rfl, Or.inl ⟨by simp only [List.length_nil]; omega, rfl, rfl⟩⟩
  induction xs with
  | nil => intro ys b h; simpa [addAll] using h
  | cons z zs ih =>
    intro ys b h
    have hstep := ih (ys ++ [z]) (b.add z) (reachInv_add hc h)
    rw [List.append_assoc, List.singleton_append] at hstep
    simpa [addAll] using hstep


end CircularBuffer

/-! ## Characterization of `index_weighted_average` -/

lemma iwaFold_spec (l : List ℚ) :
    ∀ (idx : Nat) (s : ℚ) (w : Nat),
      iwaFold idx (s, w) l =
        (s + ∑ i in Finset.range l.length, l.getD i 0 * ((idx + i + 1 : Nat) : ℚ),
         w + ∑ i in Finset.range l.length, (idx + i + 1)) := by
  induction l with
  | nil =>
    intro idx s w
    simp [iwaFold]
  | cons v rest ih =>
    intro idx s w
    rw [iwaFold, ih, Prod.mk.injEq]
    have hs : ∑ i in Finset.range ((v :: rest).length),
        (v :: rest).getD i 0 * ((idx + i + 1 : Nat) : ℚ)
        = (∑ i in Finset.range rest.length,
            rest.getD i 0 * ((idx + 1 + i + 1 : Nat) : ℚ)) + v * ((idx + 1 : Nat) : ℚ) := by
      rw [List.length_cons, Finset.sum_range_succ']
      congr 1
      apply Finset.sum_congr rfl
      intro i _
      rw [List.getD_cons_succ]
      congr 2
      omega
    have hw : ∑ i in Finset.range ((v :: rest).length), (idx + i + 1)
        = (∑ i in Finset.range rest.length, (idx + 1 + i + 1)) + (idx + 1) := by
      rw [List.length_cons, Finset.sum_range_succ']
      congr 1
      apply Finset.sum_congr rfl
      intro i _
      omega
    refine ⟨?_, ?_⟩
    · rw [hs]
      ring
    · rw [hw]
      ring

/-- `index_weighted_average` computes exactly the position-weighted mean
`Σ(sample_i · (i+1)) / Σ(i+1)` over the traversal. -/
lemma index_weighted_average_eq (l : List ℚ) :
    index_weighted_average l =
      (∑ i in Finset.range l.length, l.getD i 0 * ((i : ℚ) + 1)) /
      (∑ i in Finset.range l.length, ((i : ℚ) + 1)) := by
  rw [index_weighted_average, iwaFold_spec]
  simp only [zero_add]
  congr 1
  · apply Finset.sum_congr rfl
    intro i _
    congr 1
    push_cast
    ring
  · push_cast
    apply Finset.sum_congr rfl
    intro i _
    ring

namespace FanCurve

lemma findLowerAux_eq_none (points : List FanCurvePoint) (t : ℚ) :
    ∀ (n : Nat), (∀ j, j < n → ¬ (points.getD j default).temperature ≤ t) →
      findLowerAux points t n = none := by
  intro n
  induction n with
  | zero => intro _; rfl
  | succ m ih =>
    intro h
    rw [findLowerAux, if_neg (h m (by omega))]
    exact ih (fun j hj => h j (by omega))

lemma findLowerAux_eq_some (points : List FanCurvePoint) (t : ℚ) :
    ∀ (n i : Nat), i < n → (points.getD i default).temperature ≤ t →
      (∀ j, i < j → j < n → ¬ (points.getD j default).temperature ≤ t) →
      findLowerAux points t n = some i := by
  intro n
  induction n with
  | zero => intro i hi; omega
  | succ m ih =>
    intro i hi hle hgt
    by_cases him : i = m
    · rw [findLowerAux, if_pos (him ▸ hle), him]
    · rw [findLowerAux, if_neg (hgt m (by omega) (by omega))]
      exact ih i (by omega) hle (fun j hj hjm => hgt j hj (by omega))

end FanCurve

/-! ## Claims -/

/-- **C1.** `CircularBuffer::last` does not return the most recently
ingested sample: `data[self.last]` indexes the next-overwrite slot, which
holds the oldest retained sample.  After ingesting 1 then 2 into a fresh
capacity-5 buffer (as the controller's `step` does for temperatures) it
returns 1, not the most recent 2; on an empty buffer the access fails. -/
theorem last_accessor_returns_oldest_sample :
    (CircularBuffer.addAll (CircularBuffer.new ℚ 5) [1, 2]).lastElem = some 1 ∧
    ¬ (CircularBuffer.addAll (CircularBuffer.new ℚ 5) [1, 2]).lastElem = some 2 ∧
    (CircularBuffer.new ℚ 5).lastElem = none := by
  decide

/-- **C3.** `index_weighted_average` over a non-empty traversal is exactly
`Σ(sample_i · (i+1)) / Σ(i+1)` (0-based position `i`, so the newest sample,
last in traversal order, carries the highest weight); the weighted average
of `[1,1,1,1,1]` is exactly 1, and over the buffer traversal after
inserting `[1,2,3,4,5]` it is exactly `55/15`. -/
theorem weighted_average_spec (l : List ℚ) (_hne : l ≠ []) :
    index_weighted_average l =
      (∑ i in Finset.range l.length, l.getD i 0 * ((i : ℚ) + 1)) /
      (∑ i in Finset.range l.length, ((i : ℚ) + 1)) ∧
    index_weighted_average [1, 1, 1, 1, 1] = 1 ∧
    index_weighted_average
      ((CircularBuffer.addAll (CircularBuffer.new ℚ 5) [1, 2, 3, 4, 5]).iterList) =
      55 / 15 := by
  refine ⟨index_weighted_average_eq l, ?_, ?_⟩
  · simp [index_weighted_average, iwaFold]
    norm_num
  · have hl : (CircularBuffer.addAll (CircularBuffer.new ℚ 5) [1, 2, 3, 4, 5]).iterList
        = [1, 2, 3, 4, 5] := rfl
    rw [hl]
    simp [index_weighted_average, iwaFold]
    norm_num

/-- C3 witness: the weighted average of `[1, 2]` is `(1·1 + 2·2)/(1+2)`. -/
theorem weighted_average_spec_witness :
    index_weighted_average [1, 2] = 5 / 3 := by
  rw [(weighted_average_spec [1, 2] (by decide)).1]
  norm_num [Finset.sum_range_succ]

/-- **C4.** For capacity `c ≥ 1`: after `n ≤ c` insertions forward
iteration yields exactly the inserted samples in insertion order; after
`n > c` insertions it yields exactly the last `c` inserted, oldest first;
and reverse iteration is the exact reverse of forward iteration, for every
fill state. -/
theorem circular_buffer_iteration_spec (c : Nat) (hc : 1 ≤ c) (xs : List ℚ) :
    (xs.length ≤ c →
      (CircularBuffer.addAll (CircularBuffer.new ℚ c) xs).iterList = xs) ∧
    (c < xs.length →
      (CircularBuffer.addAll (CircularBuffer.new ℚ c) xs).iterList =
        xs.drop (xs.length - c)) ∧
    (CircularBuffer.addAll (CircularBuffer.new ℚ c) xs).revIterList =
      ((CircularBuffer.addAll (CircularBuffer.new ℚ c) xs).iterList).reverse := by
  obtain ⟨hsize, hcase⟩ := CircularBuffer.reachInv_addAll (α := ℚ) hc xs
  set b := CircularBuffer.addAll (CircularBuffer.new ℚ c) xs with hb
  rcases hcase with ⟨hlt, hdata, hlast⟩ | ⟨hge, hlen, hlast, hiter⟩
  · refine ⟨fun _ => ?_, fun hgt => by omega, ?_⟩
    · rw [CircularBuffer.iterList_eq_data b hlast, hdata]
    · rcases Nat.eq_zero_or_pos xs.length with h0 | h0
      · have hdnil : b.data = [] := by
          rw [hdata]
          exact List.length_eq_zero.mp h0
        rw [CircularBuffer.revIterList, CircularBuffer.iterList, hdnil]
        rfl
      · refine CircularBuffer.revIterList_eq_reverse b ?_
        rw [hlast, hdata]
        exact h0
  · refine ⟨fun hle => ?_, fun _ => hiter, ?_⟩
    · have hxc : xs.length = c := by omega
      rw [hiter, hxc, Nat.sub_self, List.drop_zero]
    · exact CircularBuffer.revIterList_eq_reverse b (by omega)

/-- C4 witness: capacity 2, three insertions. -/
theorem circular_buffer_iteration_spec_witness :
    (CircularBuffer.addAll (CircularBuffer.new ℚ 2) [1, 2, 3]).iterList = [2, 3] ∧
    (CircularBuffer.addAll (CircularBuffer.new ℚ 2) [1, 2, 3]).revIterList = [3, 2] := by
  have h := circular_buffer_iteration_spec 2 (by decide) [1, 2, 3]
  refine ⟨?_, ?_⟩
  · rw [h.2.1 (by decide)]
    rfl
  · rw [h.2.2, h.2.1 (by decide)]
    rfl

/-- In the `Performance` regime, when the override does not fire, `step`
reduces to the sustain test: some traversed usage sample at the 75 threshold
and weighted usage at least 5. -/
lemma stepState_performance (m : GpuStateMachine)
    (hstate : m.state = GpuCustomState.Performance)
    (hover : ¬ index_weighted_average m.usage_buffer.iterList ≥ 75) :
    m.stepState =
      (if (m.usage_buffer.iterList.any fun u => decide (u ≥ (75 : ℚ))) &&
          decide (index_weighted_average m.usage_buffer.iterList ≥ 5)
       then GpuCustomState.Performance else GpuCustomState.Idle) := by
  simp only [GpuStateMachine.stepState]
  rw [if_neg hover, hstate]

/-- **C2 (counterexample).** A `Performance`-regime machine with usage
traversal `[50, 50]`: the weighted usage average is 50 — above the 5-percent
low-usage floor and below the 75 override threshold — yet one step falls
back to `Idle`, because no single traversed sample reaches 75.  The sustain
rule is a conjunction of a single-sample threshold and the floor, and this
`main.rs` keeps no power telemetry at all, so sustained weighted usage above
the floor alone does not keep the machine in `Performance` as the claim
states. -/
theorem performance_sustain_counterexample :
    index_weighted_average perfLowMachine.usage_buffer.iterList = 50 ∧
    (5 : ℚ) ≤ index_weighted_average perfLowMachine.usage_buffer.iterList ∧
    ¬ (75 : ℚ) ≤ index_weighted_average perfLowMachine.usage_buffer.iterList ∧
    perfLowMachine.state = GpuCustomState.Performance ∧
    (perfLowMachine.step).state = GpuCustomState.Idle := by
  have hl : perfLowMachine.usage_buffer.iterList = [50, 50] := rfl
  have hiwa : index_weighted_average perfLowMachine.usage_buffer.iterList = 50 := by
    rw [hl]
    simp [index_weighted_average, iwaFold]
    norm_num
  refine ⟨hiwa, by rw [hiwa]; norm_num, by rw [hiwa]; norm_num, rfl, ?_⟩
  show perfLowMachine.stepState = GpuCustomState.Idle
  rw [stepState_performance perfLowMachine rfl (by rw [hiwa]; norm_num)]
  have hany : (perfLowMachine.usage_buffer.iterList.any
      fun u => decide (u ≥ (75 : ℚ))) = false := by
    rw [hl]
    norm_num
  rw [hany, Bool.false_and]
  rfl

/-- **C2 (amended).** For every `Performance`-regime machine for which the
high-usage override (weighted usage ≥ 75) does not fire, one step remains in
`Performance` if and only if some sample in the usage traversal is at least
75 and the weighted usage average is at least 5; otherwise it transitions to
`Idle`.  (The code keeps no power telemetry; there is no power-based sustain
condition.) -/
theorem performance_sustain_spec (m : GpuStateMachine)
    (hstate : m.state = GpuCustomState.Performance)
    (hover : ¬ index_weighted_average m.usage_buffer.iterList ≥ 75) :
    ((m.step).state = GpuCustomState.Performance ↔
      (∃ u ∈ m.usage_buffer.iterList, u ≥ (75 : ℚ)) ∧
        index_weighted_average m.usage_buffer.iterList ≥ 5) ∧
    ((m.step).state = GpuCustomState.Performance ∨
      (m.step).state = GpuCustomState.Idle) := by
  have hstep : (m.step).state = m.stepState := rfl
  rw [hstep, stepState_performance m hstate hover]
  split_ifs with hcond
  · simp only [Bool.and_eq_true, List.any_eq_true, decide_eq_true_eq] at hcond
    exact ⟨iff_of_true rfl hcond, Or.inl rfl⟩
  · simp only [Bool.and_eq_true, List.any_eq_true, decide_eq_true_eq] at hcond
    exact ⟨iff_of_false (by decide) hcond, Or.inr rfl⟩

/-- C2 witness: usage traversal `[80, 10]` (weighted usage `100/3 < 75`, one
sample at 75): the machine stays in `Performance`. -/
theorem performance_sustain_spec_witness :
    (perfHighMachine.step).state = GpuCustomState.Performance := by
  have hl : perfHighMachine.usage_buffer.iterList = [80, 10] := rfl
  have hiwa : index_weighted_average perfHighMachine.usage_buffer.iterList = 100 / 3 := by
    rw [hl]
    simp [index_weighted_average, iwaFold]
    norm_num
  refine ((performance_sustain_spec perfHighMachine rfl (by rw [hiwa]; norm_num)).1).mpr
    ⟨⟨80, ?_, by norm_num⟩, by rw [hiwa]; norm_num⟩
  rw [hl]
  norm_num

/-- **C9.** The machine starts in `Idle`, and one step only ever performs a
listed transition (staying in place included); in particular no step moves
from `Performance` directly to `CoolOff`, whatever the buffer contents. -/
theorem regime_transition_structure :
    (∀ scale : Nat, (GpuStateMachine.new scale).state = GpuCustomState.Idle) ∧
    ∀ m : GpuStateMachine, AllowedTransition m.state (m.step).state := by
  refine ⟨fun _ => rfl, fun m => ?_⟩
  obtain ⟨s, ub, tb⟩ := m
  simp only [GpuStateMachine.step, GpuStateMachine.stepState]
  cases s <;> dsimp only <;> split_ifs <;> simp [AllowedTransition]

/-- C9 witness: the concrete `Performance`-regime machine steps to a listed
successor. -/
theorem regime_transition_structure_witness :
    AllowedTransition perfLowMachine.state (perfLowMachine.step).state :=
  regime_transition_structure.2 perfLowMachine

/-- **C5 (counterexample).** A malformed number in a state line makes
`try_parse` abort (the `expect("Invalid clock value")` panics) rather than
return `None`. -/
theorem parse_failure_counterexample :
    PolarisGpuTable.try_parse "OD_SCLK:\n0: 300Qz 750mV" =
      PolarisGpuTable.TryParseResult.panicked ∧
    PolarisGpuTable.TryParseResult.panicked ≠ PolarisGpuTable.TryParseResult.failed :=
  ⟨rfl, by decide⟩

/-- **C5 (amended).** `try_parse` returns `None` exactly when the line loop
finishes without aborting and the final completeness check fails — a missing
range, a missing or empty state section.  The other structural failures the
claim lists — a data line before any section header, a missing token, a
value without its unit suffix, a malformed number, an unknown section header
or range name — abort with a panic instead of returning `None`.  The trailing
conjuncts ground each behaviour class: a missing ranges section, an
incomplete range section and an empty core section give `None`; an unknown
header, a state line before any header, a clock without its `MHz` suffix and
an unknown range name panic. -/
theorem parse_failure_spec :
    (∀ input : String,
      PolarisGpuTable.try_parse input = PolarisGpuTable.TryParseResult.failed ↔
        ∃ acc, (RustStr.splitChar '\n' input.toList).foldlM
            PolarisGpuTable.processLine PolarisGpuTable.initAcc = some acc ∧
          ¬ (acc.voltage_range.isSome = true ∧ acc.sclk_range.isSome = true ∧
             acc.mclk_range.isSome = true ∧
             0 < acc.memory_states.length ∧ 0 < acc.core_states.length)) ∧
    PolarisGpuTable.try_parse "OD_SCLK:\n0: 300MHz 750mV\nOD_MCLK:\n0: 300MHz 750mV" =
      PolarisGpuTable.TryParseResult.failed ∧
    PolarisGpuTable.try_parse
        "OD_SCLK:\n0: 300MHz 750mV\nOD_MCLK:\n0: 300MHz 750mV\nOD_RANGE:\nSCLK: 300MHz 2000MHz" =
      PolarisGpuTable.TryParseResult.failed ∧
    PolarisGpuTable.try_parse
        "OD_SCLK:\nOD_MCLK:\n0: 300MHz 750mV\nOD_RANGE:\nSCLK: 300MHz 2000MHz\nMCLK: 300MHz 2250MHz\nVDDC: 750mV 1150mV" =
      PolarisGpuTable.TryParseResult.failed ∧
    PolarisGpuTable.try_parse "FOO:" = PolarisGpuTable.TryParseResult.panicked ∧
    PolarisGpuTable.try_parse "0: 300MHz 750mV" =
      PolarisGpuTable.TryParseResult.panicked ∧
    PolarisGpuTable.try_parse "OD_SCLK:\n0: 300 750mV" =
      PolarisGpuTable.TryParseResult.panicked ∧
    PolarisGpuTable.try_parse "OD_SCLK:\n0: 300MHz 750mV\nOD_RANGE:\nXCLK: 1MHz 2MHz" =
      PolarisGpuTable.TryParseResult.panicked := by
  refine ⟨fun input => ?_, rfl, rfl, rfl, rfl, rfl, rfl, rfl⟩
  show PolarisGpuTable.finishParse _ = _ ↔ _
  generalize (RustStr.splitChar '\n' input.toList).foldlM
      PolarisGpuTable.processLine PolarisGpuTable.initAcc = r
  cases r with
  | none =>
    constructor
    · intro h
      cases h
    · rintro ⟨acc, hacc, _⟩
      cases hacc
  | some acc =>
    obtain ⟨vr, sr, mr, cs, ms, ps⟩ := acc
    cases vr <;> cases sr <;> cases mr <;>
      simp only [PolarisGpuTable.finishParse, Option.isSome_none, Option.isSome_some,
        Bool.false_eq_true, false_and, and_false, not_false_iff, iff_true, true_and,
        Option.some.injEq] <;>
      try exact iff_of_true trivial ⟨_, rfl, by simp⟩
    split_ifs with hcond
    · constructor
      · intro h
        cases h
      · rintro ⟨acc', hacc', hno⟩
        apply hno
        rw [← hacc']
        simpa using hcond
    · constructor
      · intro _
        refine ⟨_, rfl, ?_⟩
        simpa using hcond
      · intro _
        rfl

/-- **C7.** Parsing the canonical three-section text succeeds and yields
exactly the canonical table: core state 0 is `(300, 750)`, memory state 2 is
`(1500, 900)`, the memory clock range is `[300, 2250]`, the core clock range
is `[300, 2000]`, and the voltage range is `[750, 1150]`. -/
theorem canonical_parse_spec :
    PolarisGpuTable.try_parse canonicalText =
      PolarisGpuTable.TryParseResult.parsed canonicalTable ∧
    canonicalTable.get_state Part.Core 0 = some { clock := 300, voltage := 750 } ∧
    canonicalTable.get_state Part.Memory 2 = some { clock := 1500, voltage := 900 } ∧
    canonicalTable.clock_range Part.Memory = { lo := 300, hi := 2250 } ∧
    canonicalTable.clock_range Part.Core = { lo := 300, hi := 2000 } ∧
    canonicalTable.voltage_range = { lo := 750, hi := 1150 } :=
  ⟨rfl, rfl, rfl, rfl, rfl, rfl⟩

/-- **C6 (counterexample).** With an out-of-bounds index *and* an
out-of-range voltage, `set_state` reports `VoltageNotInRange`, not
`InvalidIndex`: range validation runs before the bounds check, so an
out-of-bounds index does not always produce `InvalidIndex`.  The table is
left unchanged. -/
theorem set_state_error_priority_counterexample :
    (canonicalTable.set_state Part.Core 99 { clock := 300, voltage := 1200 }).1 =
      Except.error StateInvalidReason.VoltageNotInRange ∧
    (canonicalTable.states Part.Core).length ≤ 99 ∧
    StateInvalidReason.VoltageNotInRange ≠ StateInvalidReason.InvalidIndex ∧
    (canonicalTable.set_state Part.Core 99 { clock := 300, voltage := 1200 }).2 =
      canonicalTable := by
  refine ⟨rfl, by decide, by decide, rfl⟩

/-- **C6 (amended).** `set_state` validates the candidate first —
`VoltageNotInRange` when the voltage is outside the shared range,
otherwise `ClockNotInRange` when the clock is outside the part's range —
and only then reports `InvalidIndex` for an out-of-bounds index; every
failure leaves the table unchanged (a 1200 mV candidate against the
canonical table is rejected with the table intact, per the counterexample),
and success replaces exactly the state at the index: the other indices, the
other part, and all three ranges are untouched. -/
theorem set_state_spec (t : PolarisGpuTable) (part : Part) (index : Nat)
    (state : PolarisGpuState) :
    (¬ t.voltage_range.contains state.voltage →
      t.set_state part index state =
        (Except.error StateInvalidReason.VoltageNotInRange, t)) ∧
    (t.voltage_range.contains state.voltage →
      ¬ (t.clock_range part).contains state.clock →
      t.set_state part index state =
        (Except.error StateInvalidReason.ClockNotInRange, t)) ∧
    (t.voltage_range.contains state.voltage →
      (t.clock_range part).contains state.clock →
      (t.states part).length ≤ index →
      t.set_state part index state =
        (Except.error StateInvalidReason.InvalidIndex, t)) ∧
    (t.voltage_range.contains state.voltage →
      (t.clock_range part).contains state.clock →
      index < (t.states part).length →
      (t.set_state part index state).1 = Except.ok () ∧
      (t.set_state part index state).2.states part = (t.states part).set index state ∧
      ((t.set_state part index state).2.states part)[index]? = some state ∧
      (∀ j, j ≠ index →
        ((t.set_state part index state).2.states part)[j]? = (t.states part)[j]?) ∧
      (∀ p, p ≠ part → (t.set_state part index state).2.states p = t.states p) ∧
      (t.set_state part index state).2.voltage_range = t.voltage_range ∧
      (t.set_state part index state).2.sclk_range = t.sclk_range ∧
      (t.set_state part index state).2.mclk_range = t.mclk_range) := by
  refine ⟨fun hv => ?_, fun hv hcl => ?_, fun hv hcl hidx => ?_, fun hv hcl hidx => ?_⟩
  · unfold PolarisGpuTable.set_state PolarisGpuTable.validate_state
    rw [if_pos hv]
  · unfold PolarisGpuTable.set_state PolarisGpuTable.validate_state
    rw [if_neg (not_not_intro hv), if_pos hcl]
  · unfold PolarisGpuTable.set_state PolarisGpuTable.validate_state
    rw [if_neg (not_not_intro hv), if_neg (not_not_intro hcl)]
    dsimp only
    rw [if_neg (by omega)]
  · have hset : t.set_state part index state =
        (Except.ok (), t.setPart part ((t.states part).set index state)) := by
      unfold PolarisGpuTable.set_state PolarisGpuTable.validate_state
      rw [if_neg (not_not_intro hv), if_neg (not_not_intro hcl)]
      dsimp only
      rw [if_pos hidx]
    have hparts : (t.setPart part ((t.states part).set index state)).states part =
        (t.states part).set index state := by
      cases part <;> rfl
    rw [hset]
    refine ⟨rfl, hparts, ?_, ?_, ?_, ?_, ?_, ?_⟩
    · rw [hparts]
      exact List.getElem?_set_self hidx
    · intro j hj
      rw [hparts]
      exact List.getElem?_set_ne (Ne.symm hj)
    · intro p hp
      cases part <;> cases p <;> first | rfl | exact absurd rfl hp
    · cases part <;> rfl
    · cases part <;> rfl
    · cases part <;> rfl

/-- C6 witness: a valid in-range mutation of core state 0 of the canonical
table succeeds and replaces exactly that state. -/
theorem set_state_spec_witness :
    (canonicalTable.set_state Part.Core 0 { clock := 400, voltage := 800 }).1 =
      Except.ok () ∧
    ((canonicalTable.set_state Part.Core 0
        { clock := 400, voltage := 800 }).2.states Part.Core)[0]? =
      some { clock := 400, voltage := 800 } ∧
    ((canonicalTable.set_state Part.Core 0
        { clock := 400, voltage := 800 }).2.states Part.Core)[1]? =
      (canonicalTable.states Part.Core)[1]? := by
  have h := (set_state_spec canonicalTable Part.Core 0
    { clock := 400, voltage := 800 }).2.2.2 (by decide) (by decide) (by decide)
  exact ⟨h.1, h.2.2.1, h.2.2.2.1 1 (by decide)⟩

/-- **C8.** For every fan curve with at least one control point, strictly
sorted by temperature, and every query temperature: below every point the
lowest point's duty is returned unmodified; at exactly a point's temperature
that point's duty is returned exactly; between two adjacent points the duty
is the linear interpolation
`lower.duty + (t − lower.temp) / (upper.temp − lower.temp) · (upper.duty − lower.duty)`;
and at or above the last point that point's duty is returned with no
division. -/
theorem fan_curve_evaluate_spec (c : FanCurve) (t : ℚ)
    (hne : c.points ≠ [])
    (hsorted : c.points.Pairwise (fun p q => p.temperature < q.temperature)) :
    ((∀ p ∈ c.points, t < p.temperature) →
      FanCurve.evaluate c t = (c.points.headD default).duty) ∧
    (∀ i, i < c.points.length →
      t = (c.points.getD i default).temperature →
      FanCurve.evaluate c t = (c.points.getD i default).duty) ∧
    (∀ i, i + 1 < c.points.length →
      (c.points.getD i default).temperature ≤ t →
      t < (c.points.getD (i + 1) default).temperature →
      FanCurve.evaluate c t =
        (c.points.getD i default).duty +
          (t - (c.points.getD i default).temperature) /
            ((c.points.getD (i + 1) default).temperature -
              (c.points.getD i default).temperature) *
            ((c.points.getD (i + 1) default).duty -
              (c.points.getD i default).duty)) ∧
    ((c.points.getD (c.points.length - 1) default).temperature ≤ t →
      FanCurve.evaluate c t = (c.points.getD (c.points.length - 1) default).duty) := by
  have hlen : 0 < c.points.length := List.length_pos.mpr hne
  have hmono : ∀ i j, i < j → j < c.points.length →
      (c.points.getD i default).temperature < (c.points.getD j default).temperature := by
    intro i j hij hj
    have hi : i < c.points.length := by omega
    rw [List.getD_eq_getElem _ _ hi, List.getD_eq_getElem _ _ hj]
    exact List.pairwise_iff_getElem.mp hsorted i j hi hj hij
  refine ⟨?_, ?_, ?_, ?_⟩
  · intro hbelow
    have hnone : FanCurve.findLower c.points t = none := by
      apply FanCurve.findLowerAux_eq_none
      intro j hj
      rw [List.getD_eq_getElem _ _ hj]
      exact not_le.mpr (hbelow _ (List.getElem_mem hj))
    rw [FanCurve.evaluate, hnone]
  · intro i hi htemp
    have hsel : FanCurve.findLower c.points t = some i := by
      apply FanCurve.findLowerAux_eq_some _ _ _ _ hi (le_of_eq htemp.symm)
      intro j hij hj
      exact not_le.mpr (htemp ▸ hmono i j hij hj)
    rw [FanCurve.evaluate, hsel]
    dsimp only
    split_ifs with hup
    · rw [htemp]
      simp
    · rfl
  · intro i hup hle hlt
    have hsel : FanCurve.findLower c.points t = some i := by
      apply FanCurve.findLowerAux_eq_some _ _ _ _ (by omega) hle
      intro j hij hj
      apply not_le.mpr
      rcases eq_or_lt_of_le (Nat.succ_le_of_lt hij) with hji | hji
      · rw [← hji]
        exact hlt
      · exact lt_trans hlt (hmono (i + 1) j hji hj)
    rw [FanCurve.evaluate, hsel]
    dsimp only
    rw [if_pos hup]
  · intro hlast
    have hsel : FanCurve.findLower c.points t = some (c.points.length - 1) := by
      apply FanCurve.findLowerAux_eq_some _ _ _ _ (by omega) hlast
      intro j hij hj
      omega
    rw [FanCurve.evaluate, hsel]
    dsimp only
    rw [if_neg (by omega)]

/-- C8 witness: on the curve `[(40, 30), (50, 40)]`, halfway between the
points the duty is 35; below, at a point, and above the range the duties are
30, 30 and 40. -/
theorem fan_curve_evaluate_spec_witness :
    FanCurve.evaluate
      { points := [{ temperature := 40, duty := 30 },
                   { temperature := 50, duty := 40 }] } 45 = 35 ∧
    FanCurve.evaluate
      { points := [{ temperature := 40, duty := 30 },
                   { temperature := 50, duty := 40 }] } 30 = 30 ∧
    FanCurve.evaluate
      { points := [{ temperature := 40, duty := 30 },
                   { temperature := 50, duty := 40 }] } 40 = 30 ∧
    FanCurve.evaluate
      { points := [{ temperature := 40, duty := 30 },
                   { temperature := 50, duty := 40 }] } 60 = 40 := by
  have hs : ([{ temperature := 40, duty := 30 },
      { temperature := 50, duty := 40 }] : List FanCurvePoint).Pairwise
      (fun p q => p.temperature < q.temperature) := by
    simp [List.pairwise_cons]
    norm_num
  refine ⟨?_, ?_, ?_, ?_⟩
  · have h := (fan_curve_evaluate_spec
      { points := [{ temperature := 40, duty := 30 },
                   { temperature := 50, duty := 40 }] } 45 (by simp) hs).2.2.1
      0 (by norm_num) (by norm_num) (by norm_num)
    rw [h]
    norm_num
  · have h := (fan_curve_evaluate_spec
      { points := [{ temperature := 40, duty := 30 },
                   { temperature := 50, duty := 40 }] } 30 (by simp) hs).1
      (by intro p hp; fin_cases hp <;> norm_num)
    rw [h]
    rfl
  · have h := (fan_curve_evaluate_spec
      { points := [{ temperature := 40, duty := 30 },
                   { temperature := 50, duty := 40 }] } 40 (by simp) hs).2.1
      0 (by norm_num) (by norm_num)
    rw [h]
    rfl
  · have h := (fan_curve_evaluate_spec
      { points := [{ temperature := 40, duty := 30 },
                   { temperature := 50, duty := 40 }] } 60 (by simp) hs).2.2.2
      (by norm_num)
    rw [h]
    rfl

/-- **C10 (counterexample).** The duty-cycle constructor does not clamp:
150 is rejected with `TooBig` (and −5 with `TooLittle`) instead of being
brought to the nearest bound. -/
theorem clamped_percentage_counterexample :
    ClampedPercentage.try_from 150 = Except.error ClampedPercentageError.TooBig ∧
    ClampedPercentage.try_from (-5) = Except.error ClampedPercentageError.TooLittle :=
  ⟨rfl, rfl⟩

/-- **C10 (amended).** The constructor validates instead of clamping:
values inside `[0, 100]` are accepted unmodified, values below 0 fail with
`TooLittle`, values above 100 fail with `TooBig` (`new` unwraps the result
and hence panics there). -/
theorem clamped_percentage_spec (v : ℚ) :
    (0 ≤ v → v ≤ 100 → ClampedPercentage.try_from v = Except.ok v) ∧
    (v < 0 → ClampedPercentage.try_from v = Except.error ClampedPercentageError.TooLittle) ∧
    (100 < v → ClampedPercentage.try_from v = Except.error ClampedPercentageError.TooBig) := by
  refine ⟨fun h0 h100 => ?_, fun h => ?_, fun h => ?_⟩ <;>
    · unfold ClampedPercentage.try_from
      split_ifs <;> first | rfl | linarith

/-- C10 witness: 42 is stored unmodified, −1 is `TooLittle`. -/
theorem clamped_percentage_spec_witness :
    ClampedPercentage.try_from 42 = Except.ok 42 ∧
    ClampedPercentage.try_from (-1) = Except.error ClampedPercentageError.TooLittle :=
  ⟨(clamped_percentage_spec 42).1 (by norm_num) (by norm_num),
   (clamped_percentage_spec (-1)).2.1 (by norm_num)⟩

end Sentinel
